import Mathlib

/-!
Shallow embedding of the character encoding/escaping core of
`src/libcore/char/mod.rs` (digit conversion, UTF-8/UTF-16 lengths and
fixed-buffer encoders, and the three escape-sequence state machines),
together with theorems settling the specification claims.

Modelling conventions:
- a scalar value (Rust `char`) is a `Nat` code point; `IsScalar` states the
  validity range the surrounding system guarantees;
- `u32`/`u16`/`u8` arithmetic is `Nat` arithmetic with explicit `% 2^w`
  exactly where the Rust code truncates (`as u8`, `as u16`);
- a caller-supplied buffer is a `List Nat` whose length is the capacity; an
  encoder returns the exact list of units it wrote (the returned sub-view);
- a Rust `panic!` is an `Except.error` carrying the condition the panic
  message reports (`BufferTooSmall(required, available)` / `InvalidRadix`).
-/

/-- A Unicode scalar value: in `[0, 0x10FFFF]`, excluding surrogates. -/
def IsScalar (v : Nat) : Prop := v < 0x110000 ∧ (v < 0xD800 ∨ 0xDFFF < v)

instance (v : Nat) : Decidable (IsScalar v) := by
  unfold IsScalar; infer_instance

/-- The two failure conditions of the core: `to_digit`'s radix panic and the
encoders' undersized-buffer panic (which reports required and available). -/
inductive CharError where
  | invalidRadix : CharError
  | bufferTooSmall (required available : Nat) : CharError
deriving DecidableEq

/-- `CharExt::to_digit` (mod.rs lines 148-160). Matches `'0'..='9'`,
`'a'..='z'`, `'A'..='Z'` on the code point and checks `val < radix`;
panics (here: errors) when `radix > 36`. -/
def to_digit (c radix : Nat) : Except CharError (Option Nat) :=
  if 36 < radix then
    Except.error CharError.invalidRadix
  else if 0x30 ≤ c ∧ c ≤ 0x39 then
    Except.ok (if c - 0x30 < radix then some (c - 0x30) else none)
  else if 0x61 ≤ c ∧ c ≤ 0x7A then
    Except.ok (if c - 0x61 + 10 < radix then some (c - 0x61 + 10) else none)
  else if 0x41 ≤ c ∧ c ≤ 0x5A then
    Except.ok (if c - 0x41 + 10 < radix then some (c - 0x41 + 10) else none)
  else
    Except.ok none

/-- `CharExt::is_digit` (mod.rs lines 143-145): `to_digit(radix).is_some()`,
inheriting `to_digit`'s radix panic. -/
def is_digit (c radix : Nat) : Except CharError Bool :=
  (to_digit c radix).map Option.isSome

/-- `CharExt::len_utf8` (mod.rs lines 207-218). -/
def len_utf8 (code : Nat) : Nat :=
  if code < 0x80 then 1
  else if code < 0x800 then 2
  else if code < 0x10000 then 3
  else 4

/-- `CharExt::len_utf16` (mod.rs lines 221-224): `1` iff
`ch & 0xFFFF == ch`, else `2`. -/
def len_utf16 (code : Nat) : Nat :=
  if code &&& 0xFFFF = code then 1 else 2

/-- `CharExt::encode_utf8` (mod.rs lines 227-257). Each branch checks the
buffer capacity before writing; the final branch panics (here: errors) with
`required = len_utf8(code)` and `available = dst.len()`. The `as u8` casts
are `% 256`. -/
def encode_utf8 (code : Nat) (dst : List Nat) : Except CharError (List Nat) :=
  if code < 0x80 ∧ 1 ≤ dst.length then
    Except.ok [code % 256]
  else if code < 0x800 ∧ 2 ≤ dst.length then
    Except.ok [((code >>> 6 &&& 0x1F) % 256) ||| 0xC0,
               ((code &&& 0x3F) % 256) ||| 0x80]
  else if code < 0x10000 ∧ 3 ≤ dst.length then
    Except.ok [((code >>> 12 &&& 0x0F) % 256) ||| 0xE0,
               ((code >>> 6 &&& 0x3F) % 256) ||| 0x80,
               ((code &&& 0x3F) % 256) ||| 0x80]
  else if 4 ≤ dst.length then
    Except.ok [((code >>> 18 &&& 0x07) % 256) ||| 0xF0,
               ((code >>> 12 &&& 0x3F) % 256) ||| 0x80,
               ((code >>> 6 &&& 0x3F) % 256) ||| 0x80,
               ((code &&& 0x3F) % 256) ||| 0x80]
  else
    Except.error (CharError.bufferTooSmall (len_utf8 code) dst.length)

/-- `CharExt::encode_utf16` (mod.rs lines 260-280). A BMP value with a
nonempty buffer is written directly (`as u16` is `% 0x10000`); otherwise with
two slots the value minus `0x10000` is split into a surrogate pair; otherwise
it panics (here: errors) with `required = len_utf16(code)`,
`available = dst.len()`. -/
def encode_utf16 (code : Nat) (dst : List Nat) : Except CharError (List Nat) :=
  if code &&& 0xFFFF = code ∧ 1 ≤ dst.length then
    Except.ok [code % 0x10000]
  else if 2 ≤ dst.length then
    Except.ok [0xD800 ||| (((code - 0x10000) >>> 10) % 0x10000),
               0xDC00 ||| (((code - 0x10000) % 0x10000) &&& 0x3FF)]
  else
    Except.error (CharError.bufferTooSmall (len_utf16 code) dst.length)

/-- Modelled from the spec: `from_digit` lives in `char/convert.rs`, which is
not among the provided sources. Spec section 4.1: the inverse mapping of
`to_digit` (digits below 10 map to `'0' + d`, larger ones to `'a' + d - 10`),
failing when `digit >= radix`. -/
def from_digit (num radix : Nat) : Option Char :=
  if num < radix then
    if num < 10 then some (Char.ofNat (0x30 + num))
    else some (Char.ofNat (0x61 + num - 10))
  else none

/-- The states of `EscapeUnicode` (mod.rs lines 306-314), ordered as in the
source. The source's `Type` state is named `Ty` here (`Type` is a Lean
keyword). -/
inductive EscapeUnicodeState where
  | Done
  | RightBrace
  | Value
  | LeftBrace
  | Ty
  | Backslash
deriving DecidableEq

/-- The per-state summand of `ExactSizeIterator for EscapeUnicode::len`
(mod.rs lines 377-390): `Done:0, RightBrace:1, Value:2, LeftBrace:3,
Type:4, Backslash:5`. -/
def EscapeUnicodeState.offset : EscapeUnicodeState → Nat
  | .Done => 0
  | .RightBrace => 1
  | .Value => 2
  | .LeftBrace => 3
  | .Ty => 4
  | .Backslash => 5

/-- The `EscapeUnicode` iterator (mod.rs lines 293-301): the character being
escaped, the current state, and the index of the next hex digit to print. -/
structure EscapeUnicode where
  c : Nat
  state : EscapeUnicodeState
  hex_digit_idx : Nat
deriving DecidableEq

/-- `CharExt::escape_unicode` (mod.rs lines 163-178). The source computes
`msb = 31 - (c | 1).leading_zeros()` on `u32`; for `1 ≤ x < 2^32` that is
the highest-set-bit position, i.e. `Nat.log2 x`. Or-ing 1 guards `c == 0`. -/
def escape_unicode (c : Nat) : EscapeUnicode :=
  { c := c, state := EscapeUnicodeState.Backslash,
    hex_digit_idx := Nat.log2 (c ||| 1) / 4 }

/-- `Iterator for EscapeUnicode::next` (mod.rs lines 320-350), as a pure
step function returning the yielded character and the successor state.
`from_digit(hex_digit, 16).unwrap()` is modelled with `.getD`; the digit is
`_ &&& 0xF < 16`, so `from_digit` never returns `none` there. -/
def EscapeUnicode.next (e : EscapeUnicode) : Option Char × EscapeUnicode :=
  match e.state with
  | .Backslash => (some '\\', { e with state := EscapeUnicodeState.Ty })
  | .Ty => (some 'u', { e with state := EscapeUnicodeState.LeftBrace })
  | .LeftBrace => (some '{', { e with state := EscapeUnicodeState.Value })
  | .Value =>
      let hex_digit := (e.c >>> (e.hex_digit_idx * 4)) &&& 0xF
      let ch := (from_digit hex_digit 16).getD '0'
      if e.hex_digit_idx = 0 then
        (some ch, { e with state := EscapeUnicodeState.RightBrace })
      else
        (some ch, { e with hex_digit_idx := e.hex_digit_idx - 1 })
  | .RightBrace => (some '}', { e with state := EscapeUnicodeState.Done })
  | .Done => (none, e)

/-- `ExactSizeIterator for EscapeUnicode::len` (mod.rs lines 377-390). -/
def EscapeUnicode.len (e : EscapeUnicode) : Nat :=
  e.hex_digit_idx + e.state.offset

/-- `Iterator for EscapeUnicode::last` (mod.rs lines 363-373): `None` when
`Done`, else the closing brace. -/
def EscapeUnicode.last (e : EscapeUnicode) : Option Char :=
  match e.state with
  | .Done => none
  | _ => some '}'

/-- Fuelled materialization of the iterator: repeatedly call `next` until it
yields nothing or the fuel runs out. Used to state full-consumption facts. -/
def EscapeUnicode.toListAux : Nat → EscapeUnicode → List Char
  | 0, _ => []
  | fuel + 1, e =>
      match e.next with
      | (some ch, e') => ch :: EscapeUnicode.toListAux fuel e'
      | (none, _) => []

/-- The full character sequence the iterator produces from a given state;
`len` fuel always suffices (proved below). -/
def EscapeUnicode.toList (e : EscapeUnicode) : List Char :=
  EscapeUnicode.toListAux e.len e

/-- The states reachable by `next` steps from `escape_unicode v`. -/
inductive Reachable (v : Nat) : EscapeUnicode → Prop where
  | init : Reachable v (escape_unicode v)
  | step (e e' : EscapeUnicode) (ch : Char) :
      Reachable v e → e.next = (some ch, e') → Reachable v e'

/-- The states of `EscapeDefault` (mod.rs lines 418-424). The source's
`Char` variant keeps its name; its payload is a Lean `Char`. -/
inductive EscapeDefaultState where
  | Done
  | Char (c : Char)
  | Backslash (c : Char)
  | Unicode (iter : EscapeUnicode)
deriving DecidableEq

/-- The `EscapeDefault` iterator (mod.rs lines 414-416). -/
structure EscapeDefault where
  state : EscapeDefaultState
deriving DecidableEq

/-- `CharExt::escape_default` (mod.rs lines 181-191): tab, CR and LF become
backslash escapes with a letter; backslash and both quotes are
backslash-escaped as themselves; printable ASCII `0x20..=0x7E` passes
through; everything else delegates to `escape_unicode`. -/
def escape_default (c : Nat) : EscapeDefault :=
  { state :=
      if c = 0x9 then EscapeDefaultState.Backslash 't'
      else if c = 0xD then EscapeDefaultState.Backslash 'r'
      else if c = 0xA then EscapeDefaultState.Backslash 'n'
      else if c = 0x5C ∨ c = 0x27 ∨ c = 0x22 then
        EscapeDefaultState.Backslash (Char.ofNat c)
      else if 0x20 ≤ c ∧ c ≤ 0x7E then EscapeDefaultState.Char (Char.ofNat c)
      else EscapeDefaultState.Unicode (escape_unicode c) }

/-- `Iterator for EscapeDefault::next` (mod.rs lines 430-443). -/
def EscapeDefault.next (e : EscapeDefault) : Option Char × EscapeDefault :=
  match e.state with
  | .Backslash c => (some '\\', { state := EscapeDefaultState.Char c })
  | .Char c => (some c, { state := EscapeDefaultState.Done })
  | .Done => (none, e)
  | .Unicode iter =>
      let r := iter.next
      (r.1, { state := EscapeDefaultState.Unicode r.2 })

/-- `ExactSizeIterator for EscapeDefault::len` (mod.rs lines 494-503). -/
def EscapeDefault.len (e : EscapeDefault) : Nat :=
  match e.state with
  | .Done => 0
  | .Char _ => 1
  | .Backslash _ => 2
  | .Unicode iter => iter.len

/-- `Iterator for EscapeDefault::last` (mod.rs lines 484-490). -/
def EscapeDefault.last (e : EscapeDefault) : Option Char :=
  match e.state with
  | .Unicode iter => iter.last
  | .Done => none
  | .Backslash c => some c
  | .Char c => some c

/-- Fuelled materialization of `EscapeDefault`, as for `EscapeUnicode`. -/
def EscapeDefault.toListAux : Nat → EscapeDefault → List Char
  | 0, _ => []
  | fuel + 1, e =>
      match e.next with
      | (some ch, e') => ch :: EscapeDefault.toListAux fuel e'
      | (none, _) => []

/-- The full character sequence `EscapeDefault` produces from a state. -/
def EscapeDefault.toList (e : EscapeDefault) : List Char :=
  EscapeDefault.toListAux e.len e

/-- The `EscapeDebug` newtype wrapper (mod.rs line 527). -/
structure EscapeDebug where
  inner : EscapeDefault
deriving DecidableEq

/-- `CharExt::escape_debug` (mod.rs lines 194-204): same shape selection as
`escape_default`, except the printable decision delegates to the external
`is_printable` oracle (the `printable` module is an external collaborator,
so the oracle is a parameter). -/
def escape_debug (is_printable : Nat → Bool) (c : Nat) : EscapeDebug :=
  { inner :=
      { state :=
          if c = 0x9 then EscapeDefaultState.Backslash 't'
          else if c = 0xD then EscapeDefaultState.Backslash 'r'
          else if c = 0xA then EscapeDefaultState.Backslash 'n'
          else if c = 0x5C ∨ c = 0x27 ∨ c = 0x22 then
            EscapeDefaultState.Backslash (Char.ofNat c)
          else if is_printable c then EscapeDefaultState.Char (Char.ofNat c)
          else EscapeDefaultState.Unicode (escape_unicode c) } }

/-- `Iterator for EscapeDebug::next` (mod.rs line 532) delegates to the
wrapped `EscapeDefault`. -/
def EscapeDebug.next (e : EscapeDebug) : Option Char × EscapeDebug :=
  ((e.inner.next).1, { inner := (e.inner.next).2 })

/-- The full character sequence of `EscapeDebug`: since `next` is pure
delegation, so is materialization. -/
def EscapeDebug.toList (e : EscapeDebug) : List Char :=
  e.inner.toList

instance {ε α : Type} [DecidableEq ε] [DecidableEq α] : DecidableEq (Except ε α) := fun a b =>
  match a, b with
  | Except.ok x, Except.ok y =>
      if h : x = y then isTrue (by rw [h]) else isFalse (by intro hc; cases hc; exact h rfl)
  | Except.error x, Except.error y =>
      if h : x = y then isTrue (by rw [h]) else isFalse (by intro hc; cases hc; exact h rfl)
  | Except.ok _, Except.error _ => isFalse (by intro hc; cases hc)
  | Except.error _, Except.ok _ => isFalse (by intro hc; cases hc)

/-- Index invariant of `EscapeUnicode`: in the `Done` and `RightBrace`
states the hex-digit index has already been driven to `0`. It holds of
every state `escape_unicode` can actually reach. -/
def EscapeUnicode.IdxInv (e : EscapeUnicode) : Prop :=
  (e.state = EscapeUnicodeState.Done ∨ e.state = EscapeUnicodeState.RightBrace) →
    e.hex_digit_idx = 0

theorem EscapeUnicode.toListAux_done (fuel : Nat) (e : EscapeUnicode)
    (h : e.state = EscapeUnicodeState.Done) :
    EscapeUnicode.toListAux fuel e = [] := by
  cases fuel with
  | zero => rfl
  | succ n =>
      obtain ⟨c, st, idx⟩ := e
      simp only at h
      subst h
      rfl

theorem EscapeUnicode.next_some_len (e e' : EscapeUnicode) (ch : Char)
    (h : e.next = (some ch, e')) : e'.len + 1 = e.len := by
  obtain ⟨c, st, idx⟩ := e
  cases st with
  | Done => simp [EscapeUnicode.next] at h
  | RightBrace =>
      simp [EscapeUnicode.next] at h
      rw [← h.2]
      simp [EscapeUnicode.len, EscapeUnicodeState.offset]
  | Value =>
      by_cases hidx : idx = 0 <;>
        simp [EscapeUnicode.next, hidx] at h <;>
        rw [← h.2] <;>
        simp [EscapeUnicode.len, EscapeUnicodeState.offset] <;>
        omega
  | LeftBrace =>
      simp [EscapeUnicode.next] at h
      rw [← h.2]
      simp [EscapeUnicode.len, EscapeUnicodeState.offset]
  | Ty =>
      simp [EscapeUnicode.next] at h
      rw [← h.2]
      simp [EscapeUnicode.len, EscapeUnicodeState.offset]
  | Backslash =>
      simp [EscapeUnicode.next] at h
      rw [← h.2]
      simp [EscapeUnicode.len, EscapeUnicodeState.offset]

theorem EscapeUnicode.toListAux_len (fuel : Nat) :
    ∀ (e : EscapeUnicode), e.IdxInv → e.len ≤ fuel →
      (EscapeUnicode.toListAux fuel e).length = e.len := by
  induction fuel with
  | zero =>
      intro e _ hle
      have h0 : e.len = 0 := Nat.le_zero.mp hle
      simp [EscapeUnicode.toListAux, h0]
  | succ n ih =>
      intro e hinv hle
      obtain ⟨c, st, idx⟩ := e
      cases st with
      | Done =>
          have hidx : idx = 0 := hinv (Or.inl rfl)
          subst hidx
          simp [EscapeUnicode.toListAux, EscapeUnicode.next,
                EscapeUnicode.len, EscapeUnicodeState.offset]
      | RightBrace =>
          have hidx : idx = 0 := hinv (Or.inr rfl)
          subst hidx
          have hrec := ih ⟨c, EscapeUnicodeState.Done, 0⟩ (fun _ => rfl)
            (by simp [EscapeUnicode.len, EscapeUnicodeState.offset])
          simp [EscapeUnicode.toListAux, EscapeUnicode.next,
                EscapeUnicode.len, EscapeUnicodeState.offset] at hrec ⊢
          exact hrec
      | Value =>
          by_cases hidx : idx = 0
          · subst hidx
            have hrec := ih ⟨c, EscapeUnicodeState.RightBrace, 0⟩ (fun _ => rfl)
              (by simp [EscapeUnicode.len, EscapeUnicodeState.offset] at hle ⊢; omega)
            simp [EscapeUnicode.toListAux, EscapeUnicode.next,
                  EscapeUnicode.len, EscapeUnicodeState.offset] at hrec ⊢
            exact hrec
          · have hrec := ih ⟨c, EscapeUnicodeState.Value, idx - 1⟩
              (by simp [EscapeUnicode.IdxInv])
              (by simp [EscapeUnicode.len, EscapeUnicodeState.offset] at hle ⊢; omega)
            simp [EscapeUnicode.toListAux, EscapeUnicode.next, hidx,
                  EscapeUnicode.len, EscapeUnicodeState.offset] at hrec ⊢
            omega
      | LeftBrace =>
          have hrec := ih ⟨c, EscapeUnicodeState.Value, idx⟩
            (by simp [EscapeUnicode.IdxInv])
            (by simp [EscapeUnicode.len, EscapeUnicodeState.offset] at hle ⊢; omega)
          simp [EscapeUnicode.toListAux, EscapeUnicode.next,
                EscapeUnicode.len, EscapeUnicodeState.offset] at hrec ⊢
          omega
      | Ty =>
          have hrec := ih ⟨c, EscapeUnicodeState.LeftBrace, idx⟩
            (by simp [EscapeUnicode.IdxInv])
            (by simp [EscapeUnicode.len, EscapeUnicodeState.offset] at hle ⊢; omega)
          simp [EscapeUnicode.toListAux, EscapeUnicode.next,
                EscapeUnicode.len, EscapeUnicodeState.offset] at hrec ⊢
          omega
      | Backslash =>
          have hrec := ih ⟨c, EscapeUnicodeState.Ty, idx⟩
            (by simp [EscapeUnicode.IdxInv])
            (by simp [EscapeUnicode.len, EscapeUnicodeState.offset] at hle ⊢; omega)
          simp [EscapeUnicode.toListAux, EscapeUnicode.next,
                EscapeUnicode.len, EscapeUnicodeState.offset] at hrec ⊢
          omega

theorem EscapeUnicode.toListAux_getLast (fuel : Nat) :
    ∀ (e : EscapeUnicode), e.len ≤ fuel → e.state ≠ EscapeUnicodeState.Done →
      (EscapeUnicode.toListAux fuel e).getLast? = some '}' := by
  induction fuel with
  | zero =>
      intro e hle hst
      exfalso
      obtain ⟨c, st, idx⟩ := e
      cases st <;>
        simp_all [EscapeUnicode.len, EscapeUnicodeState.offset]
  | succ n ih =>
      intro e hle hst
      obtain ⟨c, st, idx⟩ := e
      cases st with
      | Done => exact absurd rfl hst
      | RightBrace =>
          have hdone := EscapeUnicode.toListAux_done n ⟨c, EscapeUnicodeState.Done, idx⟩ rfl
          simp [EscapeUnicode.toListAux, EscapeUnicode.next, hdone]
      | Value =>
          by_cases hidx : idx = 0
          · subst hidx
            have hrec := ih ⟨c, EscapeUnicodeState.RightBrace, 0⟩
              (by simp [EscapeUnicode.len, EscapeUnicodeState.offset] at hle ⊢; omega)
              (by simp)
            simp [EscapeUnicode.toListAux, EscapeUnicode.next, List.getLast?_cons, hrec]
          · have hrec := ih ⟨c, EscapeUnicodeState.Value, idx - 1⟩
              (by simp [EscapeUnicode.len, EscapeUnicodeState.offset] at hle ⊢; omega)
              (by simp)
            simp [EscapeUnicode.toListAux, EscapeUnicode.next, hidx, List.getLast?_cons] at hrec ⊢
            rw [hrec]
            rfl
      | LeftBrace =>
          have hrec := ih ⟨c, EscapeUnicodeState.Value, idx⟩
            (by simp [EscapeUnicode.len, EscapeUnicodeState.offset] at hle ⊢; omega)
            (by simp)
          simp [EscapeUnicode.toListAux, EscapeUnicode.next, List.getLast?_cons] at hrec ⊢
          rw [hrec]
          rfl
      | Ty =>
          have hrec := ih ⟨c, EscapeUnicodeState.LeftBrace, idx⟩
            (by simp [EscapeUnicode.len, EscapeUnicodeState.offset] at hle ⊢; omega)
            (by simp)
          simp [EscapeUnicode.toListAux, EscapeUnicode.next, List.getLast?_cons] at hrec ⊢
          rw [hrec]
          rfl
      | Backslash =>
          have hrec := ih ⟨c, EscapeUnicodeState.Ty, idx⟩
            (by simp [EscapeUnicode.len, EscapeUnicodeState.offset] at hle ⊢; omega)
            (by simp)
          simp [EscapeUnicode.toListAux, EscapeUnicode.next, List.getLast?_cons] at hrec ⊢
          rw [hrec]
          rfl

theorem reachable_idxInv (v : Nat) (e : EscapeUnicode)
    (h : Reachable v e) : e.IdxInv := by
  induction h with
  | init =>
      intro hor
      rcases hor with hor | hor <;> simp [escape_unicode] at hor
  | step e e' ch _ hnext ihinv =>
      obtain ⟨c, st, idx⟩ := e
      cases st with
      | Done => simp [EscapeUnicode.next] at hnext
      | RightBrace =>
          have hidx : idx = 0 := ihinv (Or.inr rfl)
          simp [EscapeUnicode.next] at hnext
          rw [← hnext.2]
          intro _
          exact hidx
      | Value =>
          by_cases hidx : idx = 0 <;>
            simp [EscapeUnicode.next, hidx] at hnext <;>
            rw [← hnext.2] <;>
            intro hor <;>
            first
            | rfl
            | exact hidx
            | (rcases hor with hor | hor <;> simp at hor)
      | LeftBrace =>
          simp [EscapeUnicode.next] at hnext
          rw [← hnext.2]
          intro hor
          rcases hor with hor | hor <;> simp at hor
      | Ty =>
          simp [EscapeUnicode.next] at hnext
          rw [← hnext.2]
          intro hor
          rcases hor with hor | hor <;> simp at hor
      | Backslash =>
          simp [EscapeUnicode.next] at hnext
          rw [← hnext.2]
          intro hor
          rcases hor with hor | hor <;> simp at hor

theorem EscapeDefault.toListAux_unicode (fuel : Nat) :
    ∀ (it : EscapeUnicode),
      EscapeDefault.toListAux fuel { state := EscapeDefaultState.Unicode it } =
        EscapeUnicode.toListAux fuel it := by
  induction fuel with
  | zero => intro it; rfl
  | succ n ih =>
      intro it
      rcases hnext : it.next with ⟨r, it'⟩
      cases r with
      | none =>
          simp [EscapeDefault.toListAux, EscapeUnicode.toListAux,
                EscapeDefault.next, hnext]
      | some ch =>
          simp [EscapeDefault.toListAux, EscapeUnicode.toListAux,
                EscapeDefault.next, hnext]
          exact ih it'

theorem EscapeDefault.toList_unicode (it : EscapeUnicode) :
    EscapeDefault.toList { state := EscapeDefaultState.Unicode it } = it.toList := by
  simp [EscapeDefault.toList, EscapeUnicode.toList, EscapeDefault.len]
  exact EscapeDefault.toListAux_unicode it.len it

theorem EscapeUnicode.last_eq_getLast (e : EscapeUnicode) :
    e.last = e.toList.getLast? := by
  by_cases hst : e.state = EscapeUnicodeState.Done
  · have hdone := EscapeUnicode.toListAux_done e.len e hst
    obtain ⟨c, st, idx⟩ := e
    simp only at hst
    subst hst
    simp [EscapeUnicode.last, EscapeUnicode.toList] at hdone ⊢
    simp [hdone]
  · have hlast := EscapeUnicode.toListAux_getLast e.len e (Nat.le_refl _) hst
    rw [EscapeUnicode.toList] at *
    rw [hlast]
    obtain ⟨c, st, idx⟩ := e
    cases st <;> simp_all [EscapeUnicode.last]

theorem to_digit_decimal (d r : Nat) (hd : d ≤ 9) (hr : r ≤ 36) :
    to_digit (0x30 + d) r = Except.ok (if d < r then some d else none) := by
  unfold to_digit
  rw [if_neg (by omega), if_pos (by omega)]
  have hsub : 0x30 + d - 0x30 = d := by omega
  rw [hsub]

theorem to_digit_lower (k r : Nat) (hk : k ≤ 25) (hr : r ≤ 36) :
    to_digit (0x61 + k) r =
      Except.ok (if 10 + k < r then some (10 + k) else none) := by
  unfold to_digit
  rw [if_neg (by omega), if_neg (by omega), if_pos (by omega)]
  have hsub : 0x61 + k - 0x61 + 10 = 10 + k := by omega
  rw [hsub]

theorem to_digit_upper (k r : Nat) (hk : k ≤ 25) (hr : r ≤ 36) :
    to_digit (0x41 + k) r =
      Except.ok (if 10 + k < r then some (10 + k) else none) := by
  unfold to_digit
  rw [if_neg (by omega), if_neg (by omega), if_neg (by omega),
      if_pos (by omega)]
  have hsub : 0x41 + k - 0x41 + 10 = 10 + k := by omega
  rw [hsub]

theorem to_digit_other (c r : Nat) (hr : r ≤ 36)
    (hc1 : ¬(0x30 ≤ c ∧ c ≤ 0x39)) (hc2 : ¬(0x61 ≤ c ∧ c ≤ 0x7A))
    (hc3 : ¬(0x41 ≤ c ∧ c ≤ 0x5A)) :
    to_digit c r = Except.ok none := by
  unfold to_digit
  rw [if_neg (by omega), if_neg hc1, if_neg hc2, if_neg hc3]

theorem to_digit_ok (c r : Nat) (hr : r ≤ 36) :
    ∃ o, to_digit c r = Except.ok o := by
  unfold to_digit
  rw [if_neg (by omega)]
  split
  · exact ⟨_, rfl⟩
  · split
    · exact ⟨_, rfl⟩
    · split
      · exact ⟨_, rfl⟩
      · exact ⟨_, rfl⟩

/-- C5: for every radix in `2..=36`, `to_digit` maps `'0'..'9'` to `0..9`,
letters case-insensitively to `10..35`, rejects any other character and any
mapped value `>= radix` (so `to_digit('c', 10)` is not a digit, while
`to_digit('a', 16) = to_digit('A', 16) = some 10`), and `is_digit` holds
exactly when `to_digit` succeeds. -/
theorem to_digit_spec (r : Nat) (_hlo : 2 ≤ r) (hhi : r ≤ 36) :
    (∀ d, d ≤ 9 →
      to_digit (0x30 + d) r = Except.ok (if d < r then some d else none)) ∧
    (∀ k, k ≤ 25 →
      to_digit (0x61 + k) r = to_digit (0x41 + k) r ∧
      to_digit (0x61 + k) r =
        Except.ok (if 10 + k < r then some (10 + k) else none)) ∧
    (∀ c, ¬(0x30 ≤ c ∧ c ≤ 0x39) → ¬(0x61 ≤ c ∧ c ≤ 0x7A) →
      ¬(0x41 ≤ c ∧ c ≤ 0x5A) → to_digit c r = Except.ok none) ∧
    to_digit 0x61 16 = Except.ok (some 10) ∧
    to_digit 0x41 16 = Except.ok (some 10) ∧
    to_digit 0x63 10 = Except.ok none ∧
    (∀ c, is_digit c r = Except.ok true ↔
      ∃ d, to_digit c r = Except.ok (some d)) := by
  refine ⟨fun d hd => to_digit_decimal d r hd hhi,
          fun k hk => ⟨?_, to_digit_lower k r hk hhi⟩,
          fun c hc1 hc2 hc3 => to_digit_other c r hhi hc1 hc2 hc3,
          by decide, by decide, by decide, ?_⟩
  · rw [to_digit_lower k r hk hhi, to_digit_upper k r hk hhi]
  · intro c
    obtain ⟨o, ho⟩ := to_digit_ok c r hhi
    unfold is_digit
    rw [ho]
    cases o with
    | none => simp [Except.map]
    | some d => simp [Except.map]

/-- C5 witness: the theorem instantiated at radix 16. -/
theorem to_digit_spec_witness :
    to_digit 0x61 16 = Except.ok (some 10) :=
  (to_digit_spec 16 (by decide) (by decide)).2.2.2.1

/-- C6: for radix above 36, `to_digit` fails with the `InvalidRadix`
condition regardless of the input character. -/
theorem to_digit_invalid_radix (c r : Nat) (h : 36 < r) :
    to_digit c r = Except.error CharError.invalidRadix := by
  unfold to_digit
  rw [if_pos h]

/-- C6 witness: radix 37 on `'a'`. -/
theorem to_digit_invalid_radix_witness :
    to_digit 0x61 37 = Except.error CharError.invalidRadix :=
  to_digit_invalid_radix 0x61 37 (by decide)

/-- C10: the radix check only rejects radix above 36, so radix 0 and 1 never
fail: `to_digit(c, 0)` is `Ok(None)` for every character, radix 1 always
returns without a panic, and `to_digit('0', 1)` is `Some(0)`. -/
theorem to_digit_radix_zero_one (c : Nat) :
    to_digit c 0 = Except.ok none ∧
    (∃ o, to_digit c 1 = Except.ok o) ∧
    to_digit 0x30 1 = Except.ok (some 0) := by
  refine ⟨?_, to_digit_ok c 1 (by omega), by decide⟩
  unfold to_digit
  rw [if_neg (by omega)]
  split
  · rw [if_neg (by omega)]
  · split
    · rw [if_neg (by omega)]
    · split
      · rw [if_neg (by omega)]
      · rfl

/-- C1: for every scalar value and every byte buffer, `encode_utf8` succeeds
exactly when the capacity is at least `len_utf8(v)` — succeeding with a
written view of exactly `len_utf8(v)` bytes — and with any smaller capacity
fails with `BufferTooSmall(len_utf8(v), capacity)` without writing. -/
theorem encode_utf8_spec (v : Nat) (dst : List Nat) (_hs : IsScalar v) :
    (len_utf8 v ≤ dst.length →
      ∃ out, encode_utf8 v dst = Except.ok out ∧ out.length = len_utf8 v) ∧
    (dst.length < len_utf8 v →
      encode_utf8 v dst =
        Except.error (CharError.bufferTooSmall (len_utf8 v) dst.length)) := by
  constructor
  · intro hle
    unfold encode_utf8
    by_cases h1 : v < 0x80
    · have hl : len_utf8 v = 1 := by unfold len_utf8; rw [if_pos h1]
      rw [hl] at hle
      rw [if_pos ⟨h1, hle⟩]
      exact ⟨_, rfl, by simp [hl]⟩
    · by_cases h2 : v < 0x800
      · have hl : len_utf8 v = 2 := by
          unfold len_utf8; rw [if_neg h1, if_pos h2]
        rw [hl] at hle
        rw [if_neg (by omega), if_pos ⟨h2, hle⟩]
        exact ⟨_, rfl, by simp [hl]⟩
      · by_cases h3 : v < 0x10000
        · have hl : len_utf8 v = 3 := by
            unfold len_utf8; rw [if_neg h1, if_neg h2, if_pos h3]
          rw [hl] at hle
          rw [if_neg (by omega), if_neg (by omega), if_pos ⟨h3, hle⟩]
          exact ⟨_, rfl, by simp [hl]⟩
        · have hl : len_utf8 v = 4 := by
            unfold len_utf8; rw [if_neg h1, if_neg h2, if_neg h3]
          rw [hl] at hle
          rw [if_neg (by omega), if_neg (by omega), if_neg (by omega),
              if_pos hle]
          exact ⟨_, rfl, by simp [hl]⟩
  · intro hlt
    unfold encode_utf8
    by_cases h1 : v < 0x80
    · have hl : len_utf8 v = 1 := by unfold len_utf8; rw [if_pos h1]
      rw [hl] at hlt
      rw [if_neg (by omega), if_neg (by omega), if_neg (by omega),
          if_neg (by omega)]
    · by_cases h2 : v < 0x800
      · have hl : len_utf8 v = 2 := by
          unfold len_utf8; rw [if_neg h1, if_pos h2]
        rw [hl] at hlt
        rw [if_neg (by omega), if_neg (by omega), if_neg (by omega),
            if_neg (by omega)]
      · by_cases h3 : v < 0x10000
        · have hl : len_utf8 v = 3 := by
            unfold len_utf8; rw [if_neg h1, if_neg h2, if_pos h3]
          rw [hl] at hlt
          rw [if_neg (by omega), if_neg (by omega), if_neg (by omega),
              if_neg (by omega)]
        · have hl : len_utf8 v = 4 := by
            unfold len_utf8; rw [if_neg h1, if_neg h2, if_neg h3]
          rw [hl] at hlt
          rw [if_neg (by omega), if_neg (by omega), if_neg (by omega),
              if_neg (by omega)]

/-- C1 witness: `U+10000` with a 4-byte buffer succeeds with 4 bytes
written, and with a 3-byte buffer fails with `BufferTooSmall(4, 3)`. -/
theorem encode_utf8_spec_witness :
    (∃ out, encode_utf8 0x10000 [0, 0, 0, 0] = Except.ok out ∧
      out.length = len_utf8 0x10000) ∧
    encode_utf8 0x10000 [0, 0, 0] =
      Except.error (CharError.bufferTooSmall (len_utf8 0x10000) 3) :=
  ⟨(encode_utf8_spec 0x10000 [0, 0, 0, 0] (by decide)).1 (by decide),
   (encode_utf8_spec 0x10000 [0, 0, 0] (by decide)).2 (by decide)⟩

theorem and_ffff_eq_iff (v : Nat) : v &&& 0xFFFF = v ↔ v < 0x10000 := by
  have hmask : (0xFFFF : Nat) = 2 ^ 16 - 1 := by norm_num
  rw [hmask, Nat.and_pow_two_sub_one_eq_mod]
  constructor
  · intro h
    rw [← h]
    exact Nat.mod_lt _ (by norm_num)
  · intro h
    exact Nat.mod_eq_of_lt h

/-- C4: for every scalar value and every 16-bit-unit buffer, `encode_utf16`
succeeds exactly when the capacity is at least `len_utf16(v)`: a BMP value
with a slot is written directly as one unit, a supplementary-plane value
with two slots becomes the surrogate pair
`0xD800 | ((v - 0x10000) >> 10)`, `0xDC00 | ((v - 0x10000) & 0x3FF)`, and
insufficient capacity fails with `BufferTooSmall(len_utf16(v), capacity)`. -/
theorem encode_utf16_spec (v : Nat) (dst : List Nat) (hs : IsScalar v) :
    (v < 0x10000 → 1 ≤ dst.length → encode_utf16 v dst = Except.ok [v]) ∧
    (0x10000 ≤ v → 2 ≤ dst.length →
      encode_utf16 v dst =
        Except.ok [0xD800 ||| ((v - 0x10000) >>> 10),
                   0xDC00 ||| ((v - 0x10000) &&& 0x3FF)]) ∧
    (len_utf16 v ≤ dst.length →
      ∃ out, encode_utf16 v dst = Except.ok out ∧ out.length = len_utf16 v) ∧
    (dst.length < len_utf16 v →
      encode_utf16 v dst =
        Except.error (CharError.bufferTooSmall (len_utf16 v) dst.length)) := by
  have hbmp : ∀ h1 : v < 0x10000, ∀ hd : 1 ≤ dst.length,
      encode_utf16 v dst = Except.ok [v] := by
    intro h1 hd
    unfold encode_utf16
    rw [if_pos ⟨(and_ffff_eq_iff v).mpr h1, hd⟩, Nat.mod_eq_of_lt h1]
  have hsupp : ∀ h1 : 0x10000 ≤ v, ∀ hd : 2 ≤ dst.length,
      encode_utf16 v dst =
        Except.ok [0xD800 ||| ((v - 0x10000) >>> 10),
                   0xDC00 ||| ((v - 0x10000) &&& 0x3FF)] := by
    intro h1 hd
    have hnot : ¬(v &&& 0xFFFF = v ∧ 1 ≤ dst.length) := by
      intro hc
      have := (and_ffff_eq_iff v).mp hc.1
      omega
    unfold encode_utf16
    rw [if_neg hnot, if_pos hd]
    have hhi : (v - 0x10000) >>> 10 % 0x10000 = (v - 0x10000) >>> 10 := by
      rw [Nat.shiftRight_eq_div_pow]
      have hv : v < 0x110000 := hs.1
      have : (v - 0x10000) / 2 ^ 10 < 0x10000 := by omega
      exact Nat.mod_eq_of_lt this
    have hlo : (v - 0x10000) % 0x10000 &&& 0x3FF = (v - 0x10000) &&& 0x3FF := by
      have hmask : (0x3FF : Nat) = 2 ^ 10 - 1 := by norm_num
      rw [hmask, Nat.and_pow_two_sub_one_eq_mod, Nat.and_pow_two_sub_one_eq_mod,
          Nat.mod_mod_of_dvd _ (by norm_num)]
    rw [hhi, hlo]
  have hl1 : v < 0x10000 → len_utf16 v = 1 := by
    intro h1
    unfold len_utf16
    rw [if_pos ((and_ffff_eq_iff v).mpr h1)]
  have hl2 : 0x10000 ≤ v → len_utf16 v = 2 := by
    intro h1
    unfold len_utf16
    rw [if_neg (fun hc => by have := (and_ffff_eq_iff v).mp hc; omega)]
  refine ⟨hbmp, hsupp, ?_, ?_⟩
  · intro hle
    by_cases h1 : v < 0x10000
    · rw [hl1 h1] at hle ⊢
      exact ⟨_, hbmp h1 hle, rfl⟩
    · rw [hl2 (by omega)] at hle ⊢
      exact ⟨_, hsupp (by omega) hle, rfl⟩
  · intro hlt
    by_cases h1 : v < 0x10000
    · rw [hl1 h1] at hlt
      unfold encode_utf16
      rw [if_neg (by intro hc; omega), if_neg (by omega), hl1 h1]
    · rw [hl2 (by omega)] at hlt
      unfold encode_utf16
      rw [if_neg (by
            intro hc
            have := (and_ffff_eq_iff v).mp hc.1
            omega),
          if_neg (by omega), hl2 (by omega)]

/-- C4 witness: `U+10000` with two slots yields the surrogate pair
`[0xD800, 0xDC00]`; with one slot it fails with `BufferTooSmall(2, 1)`. -/
theorem encode_utf16_spec_witness :
    encode_utf16 0x10000 [0, 0] =
      Except.ok [0xD800 ||| ((0x10000 - 0x10000) >>> 10),
                 0xDC00 ||| ((0x10000 - 0x10000) &&& 0x3FF)] ∧
    encode_utf16 0x10000 [0] =
      Except.error (CharError.bufferTooSmall (len_utf16 0x10000) 1) :=
  ⟨(encode_utf16_spec 0x10000 [0, 0] (by decide)).2.1 (by decide) (by decide),
   (encode_utf16_spec 0x10000 [0] (by decide)).2.2.2 (by decide)⟩

theorem escape_unicode_zero_eq :
    escape_unicode 0 =
      { c := 0, state := EscapeUnicodeState.Backslash, hex_digit_idx := 0 } := by
  unfold escape_unicode
  have h1 : (0 : Nat) ||| 1 = 1 := by decide
  rw [h1]
  have h2 : Nat.log2 1 = 0 := by rw [Nat.log2_eq_log_two]; simp
  rw [h2]

/-- C2 counterexample: the hex escape of value 0 is exactly the sequence
backslash, `u`, `{`, `0`, `}` — 5 characters, not the 6 the spec states. -/
theorem escape_unicode_zero_not_six :
    (escape_unicode 0).toList = ['\\', 'u', '{', '0', '}'] ∧
    (escape_unicode 0).toList.length ≠ 6 := by
  rw [escape_unicode_zero_eq]
  decide

/-- C2 (amended): the generator for value 0 produces exactly `\u{0}`, which
is 5 characters; and for every value the produced sequence has length
`hex_digit_idx + 5`, so at least one hex digit is always emitted (the
starting index `floor(highest-set-bit-position(value | 1) / 4)` never
underflows). -/
theorem escape_unicode_zero_spec :
    (escape_unicode 0).toList = ['\\', 'u', '{', '0', '}'] ∧
    (escape_unicode 0).toList.length = 5 ∧
    (∀ v : Nat,
      (escape_unicode v).toList.length = (escape_unicode v).hex_digit_idx + 5 ∧
      5 ≤ (escape_unicode v).toList.length) := by
  refine ⟨by rw [escape_unicode_zero_eq]; decide,
          by rw [escape_unicode_zero_eq]; decide, ?_⟩
  intro v
  have hlen := EscapeUnicode.toListAux_len (escape_unicode v).len
    (escape_unicode v)
    (by simp [EscapeUnicode.IdxInv, escape_unicode]) (Nat.le_refl _)
  have hl5 : (escape_unicode v).len = (escape_unicode v).hex_digit_idx + 5 := rfl
  rw [EscapeUnicode.toList, hlen, hl5]
  omega

/-- C3: for every reachable state of the hex-escape generator, the remaining
length is the closed form `hex_digit_idx + state offset`; every `next` call
that yields a character decreases the length by exactly 1; and the length is
0 exactly when the generator yields nothing. -/
theorem escape_unicode_len_invariant (v : Nat) (e : EscapeUnicode)
    (h : Reachable v e) :
    e.len = e.hex_digit_idx + e.state.offset ∧
    (∀ ch e', e.next = (some ch, e') → e'.len + 1 = e.len) ∧
    (e.len = 0 ↔ e.next = (none, e)) := by
  have hinv := reachable_idxInv v e h
  refine ⟨rfl, fun ch e' hn => EscapeUnicode.next_some_len e e' ch hn, ?_, ?_⟩
  · intro h0
    obtain ⟨c, st, idx⟩ := e
    cases st <;>
      simp [EscapeUnicode.len, EscapeUnicodeState.offset] at h0
    simp [EscapeUnicode.next]
  · intro hn
    obtain ⟨c, st, idx⟩ := e
    cases st with
    | Done =>
        have hidx : idx = 0 := hinv (Or.inl rfl)
        simp [EscapeUnicode.len, EscapeUnicodeState.offset, hidx]
    | RightBrace => simp [EscapeUnicode.next] at hn
    | Value =>
        by_cases hidx : idx = 0 <;> simp [EscapeUnicode.next, hidx] at hn
    | LeftBrace => simp [EscapeUnicode.next] at hn
    | Ty => simp [EscapeUnicode.next] at hn
    | Backslash => simp [EscapeUnicode.next] at hn

/-- C3 witness: the invariant at the freshly constructed generator for 0. -/
theorem escape_unicode_len_invariant_witness :
    (escape_unicode 0).len =
      (escape_unicode 0).hex_digit_idx + (escape_unicode 0).state.offset ∧
    (∀ ch e', (escape_unicode 0).next = (some ch, e') →
      e'.len + 1 = (escape_unicode 0).len) ∧
    ((escape_unicode 0).len = 0 ↔
      (escape_unicode 0).next = (none, escape_unicode 0)) :=
  escape_unicode_len_invariant 0 (escape_unicode 0) Reachable.init

theorem escape_default_other (c : Nat) (h9 : c ≠ 0x9) (hD : c ≠ 0xD)
    (hA : c ≠ 0xA) (hq : ¬(c = 0x5C ∨ c = 0x27 ∨ c = 0x22))
    (hp : ¬(0x20 ≤ c ∧ c ≤ 0x7E)) :
    escape_default c =
      { state := EscapeDefaultState.Unicode (escape_unicode c) } := by
  unfold escape_default
  rw [if_neg h9, if_neg hD, if_neg hA, if_neg hq, if_neg hp]

theorem escape_unicode_grinning_eq :
    escape_unicode 0x1F600 =
      { c := 0x1F600, state := EscapeUnicodeState.Backslash,
        hex_digit_idx := 4 } := by
  unfold escape_unicode
  have h1 : (0x1F600 : Nat) ||| 1 = 0x1F601 := by decide
  rw [h1]
  have h2 : Nat.log2 0x1F601 = 16 := by
    rw [Nat.log2_eq_log_two]
    exact Nat.log_eq_of_pow_le_of_lt_pow (by norm_num) (by norm_num)
  rw [h2]

/-- C7: the default-escape generator yields `\t`, `\r`, `\n` for the three
control characters; backslash plus the character itself for backslash and
both quotes; the bare character for printable ASCII `0x20..=0x7E` (so
`'a'` yields exactly `a`); and for any other value delegates entirely to the
hex-escape generator (so `0x1F600` yields `\u{1f600}`). -/
theorem escape_default_spec :
    (escape_default 0x9).toList = ['\\', 't'] ∧
    (escape_default 0xD).toList = ['\\', 'r'] ∧
    (escape_default 0xA).toList = ['\\', 'n'] ∧
    (∀ c, c = 0x5C ∨ c = 0x27 ∨ c = 0x22 →
      (escape_default c).toList = ['\\', Char.ofNat c]) ∧
    (∀ c, 0x20 ≤ c → c ≤ 0x7E → c ≠ 0x5C → c ≠ 0x27 → c ≠ 0x22 →
      (escape_default c).toList = [Char.ofNat c]) ∧
    (escape_default 0x61).toList = ['a'] ∧
    (∀ c, c ≠ 0x9 → c ≠ 0xD → c ≠ 0xA → c ≠ 0x5C → c ≠ 0x27 → c ≠ 0x22 →
      ¬(0x20 ≤ c ∧ c ≤ 0x7E) →
      (escape_default c).toList = (escape_unicode c).toList) ∧
    (escape_default 0x1F600).toList =
      ['\\', 'u', '{', '1', 'f', '6', '0', '0', '}'] := by
  refine ⟨by decide, by decide, by decide, ?_, ?_, by decide, ?_, ?_⟩
  · intro c hc
    rcases hc with rfl | rfl | rfl <;> decide
  · intro c h1 h2 h3 h4 h5
    unfold escape_default
    rw [if_neg (by omega), if_neg (by omega), if_neg (by omega),
        if_neg (by omega), if_pos ⟨h1, h2⟩]
    rfl
  · intro c h9 hD hA h5C h27 h22 hp
    rw [escape_default_other c h9 hD hA (by omega) hp]
    exact EscapeDefault.toList_unicode (escape_unicode c)
  · rw [escape_default_other 0x1F600 (by decide) (by decide) (by decide)
        (by decide) (by decide)]
    rw [EscapeDefault.toList_unicode, escape_unicode_grinning_eq]
    decide

/-- C7 witness: the backslash case instantiated at the backslash character. -/
theorem escape_default_spec_witness :
    (escape_default 0x5C).toList = ['\\', Char.ofNat 0x5C] :=
  escape_default_spec.2.2.2.1 0x5C (Or.inl rfl)

/-- C8: away from the six specially-escaped characters, the debug-escape
generator yields the one bare character when the printable oracle accepts
the value and exactly the hex-escape output when it rejects it; on the six
special characters it selects the same shape as the default escape. -/
theorem escape_debug_spec (p : Nat → Bool) (c : Nat) :
    (IsScalar c → c ≠ 0x9 → c ≠ 0xD → c ≠ 0xA → c ≠ 0x5C → c ≠ 0x27 →
      c ≠ 0x22 →
      (p c = true → (escape_debug p c).toList = [Char.ofNat c]) ∧
      (p c = false →
        (escape_debug p c).toList = (escape_unicode c).toList)) ∧
    (c = 0x9 ∨ c = 0xD ∨ c = 0xA ∨ c = 0x5C ∨ c = 0x27 ∨ c = 0x22 →
      escape_debug p c = { inner := escape_default c }) := by
  constructor
  · intro _ h9 hD hA h5C h27 h22
    constructor
    · intro hp
      unfold escape_debug
      rw [if_neg h9, if_neg hD, if_neg hA, if_neg (by omega),
          if_pos (by rw [hp])]
      rfl
    · intro hp
      unfold escape_debug
      rw [if_neg h9, if_neg hD, if_neg hA, if_neg (by omega),
          if_neg (by rw [hp]; exact Bool.false_ne_true)]
      exact EscapeDefault.toList_unicode (escape_unicode c)
  · intro hc
    rcases hc with rfl | rfl | rfl | rfl | rfl | rfl <;> rfl

/-- C8 witness: with an always-rejecting oracle, the debug escape of `U+0000`
equals its hex escape, and the tab shape agrees with the default escape. -/
theorem escape_debug_spec_witness :
    (escape_debug (fun _ => false) 0).toList = (escape_unicode 0).toList ∧
    escape_debug (fun _ => false) 0x9 =
      { inner := escape_default 0x9 } :=
  ⟨((escape_debug_spec (fun _ => false) 0).1 (by decide) (by decide)
      (by decide) (by decide) (by decide) (by decide) (by decide)).2 rfl,
   (escape_debug_spec (fun _ => false) 0x9).2 (Or.inl rfl)⟩

/-- C9: for both the hex-escape and the default-escape generator, the
last-element query from any state returns exactly the final character full
consumption from that state would produce (`None` once exhausted; the
closing brace for a live hex escape; the stored character for the default
shapes). -/
theorem escape_last_spec :
    (∀ e : EscapeUnicode, e.last = e.toList.getLast?) ∧
    (∀ d : EscapeDefault, d.last = d.toList.getLast?) := by
  refine ⟨EscapeUnicode.last_eq_getLast, ?_⟩
  intro d
  obtain ⟨st⟩ := d
  cases st with
  | Done => rfl
  | Char c => rfl
  | Backslash c => rfl
  | Unicode it =>
      rw [EscapeDefault.toList_unicode]
      exact EscapeUnicode.last_eq_getLast it
